import Mathlib

/- A shallow embedding of `src/minpy/nn/solver.py` (class `Solver`), the
   training-loop driver of the minpy repository, together with proofs about
   its control logic: per-step updates, per-epoch learning-rate decay,
   accuracy evaluation with optional subsampling, and best-model tracking.

   Modelling conventions:
   * Python dicts become association lists (`List (String × _)`); the solver
     only ever rebinds dict entries, so value semantics is faithful.
   * Scalars (losses, accuracies, learning rates) are rationals `ℚ`;
     parameter tensors are an abstract type `α`, batches an abstract `β`.
   * Operations that can raise in Python (`KeyError` on a missing gradient,
     optimizer-config or learning-rate key, `ZeroDivisionError` in
     `check_accuracy`) return `Option`, `none` marking the raise.
   * External collaborators (the gradient mechanism `core.grad_and_loss`,
     the update rule from `optim`, the model's `forward`, batch labels, and
     the data iterators with their `getsubiter` method) are explicit
     function parameters, mirroring §6 of the specification. -/

namespace MinpySolver

/-- A string-keyed mapping of scalar hyperparameters, mirroring the Python
dicts `optim_config` / `init_config` and their per-parameter copies. -/
abbrev OptimConfig : Type := List (String × ℚ)

/-- A parameter mapping, mirroring the Python dict `model.params`
(`name -> tensor`), with tensors abstracted to a type `α`. -/
abbrev Params (α : Type) : Type := List (String × α)

/-- One epoch-summary record, mirroring the fields interpolated by the
verbose per-epoch print in `Solver.train`
(`'(Epoch %d / %d) train acc: %f; val_acc: %f' % (self.epoch, self.num_epochs, train_acc, val_acc)`). -/
structure EpochLog where
  epochIdx : ℕ
  totalEpochs : ℕ
  trainAcc : ℚ
  valAcc : ℚ
  deriving Repr, DecidableEq

/-- The externally supplied data iterator: a finite restartable sequence of
batches with its metadata `num_data` and `batch_size`. `reset()` rewinds to
the start; iterating a `List` always starts at the front, so `reset` is the
identity here. -/
structure DataIter (β : Type) where
  batches : List β
  numData : ℕ
  batchSize : ℕ
  deriving Repr

/-- The iterator's `getnumiterations()`: batches per full pass. -/
def DataIter.getnumiterations {β : Type} (it : DataIter β) : ℕ :=
  it.batches.length

/-- The external collaborators used by `Solver`:
* `gradAndLoss` — `core.grad_and_loss` applied to the per-batch loss
  closure: given a batch and the current parameter values in mapping order,
  it returns the gradients in the same order and the scalar loss;
* `updateRule` — the resolved optimizer function
  `update(w, dw, config) -> (next_w, next_config)`;
* `forward` — the model's forward pass on a batch's primary input, given
  the current parameter mapping, returning one row of class scores per
  example;
* `labelsOf` — the batch's primary label stream. -/
structure Collab (α β : Type) where
  gradAndLoss : β → List α → List α × ℚ
  updateRule : α → α → OptimConfig → α × OptimConfig
  forward : Params α → β → List (List ℚ)
  labelsOf : β → List ℕ

/-- The mutable state of a `Solver` instance: the model's parameter mapping
it owns a reference to, plus the bookkeeping fields set up by
`Solver._reset` (`epoch`, `best_val_acc`, `best_params`, `loss_history`,
`train_acc_history`, `val_acc_history`, `optim_configs`, `init_configs`),
plus the records emitted by the verbose epoch-summary print. -/
structure SolverState (α : Type) where
  params : Params α
  optimConfigs : List (String × OptimConfig)
  initConfigs : List (String × OptimConfig)
  lossHistory : List ℚ
  trainAccHistory : List ℚ
  valAccHistory : List ℚ
  bestValAcc : ℚ
  bestParams : Params α
  epoch : ℕ
  epochLogs : List EpochLog
  deriving Repr

/-- `Solver._reset`: zero the bookkeeping, clear the histories and the best
snapshot, and give every name in the model's `param_configs` an independent
copy of `optim_config` and of `init_config`. The model's parameter mapping
itself is not touched by `_reset`. -/
def resetState {α : Type} (paramNames : List String)
    (optimConfig initConfig : OptimConfig) (params : Params α) :
    SolverState α :=
  { params := params
    optimConfigs := paramNames.map fun p => (p, optimConfig)
    initConfigs := paramNames.map fun p => (p, initConfig)
    lossHistory := []
    trainAccHistory := []
    valAccHistory := []
    bestValAcc := 0
    bestParams := []
    epoch := 0
    epochLogs := [] }

/-- Replace the value stored at key `k` in an association list, leaving
other entries alone (the effect of `d[k] = v` on a Python dict whose key
`k` is already present). -/
def assocSet {γ : Type} (l : List (String × γ)) (k : String) (v : γ) :
    List (String × γ) :=
  l.map fun kv => if kv.1 == k then (k, v) else kv

/-- The parameter-update loop of `Solver._step`: for each `(p, w)` in
`model.params`, fetch `grads[p]` and `optim_configs[p]` (a missing key
raises `KeyError`, modelled as `none`), apply the update rule, and write
the new value into the parameter mapping and the new config into
`optim_configs`. -/
def updateLoop {α : Type} (upd : α → α → OptimConfig → α × OptimConfig) :
    Params α → Params α → List (String × OptimConfig) →
    Option (Params α × List (String × OptimConfig))
  | [], _, configs => some ([], configs)
  | (p, w) :: rest, grads, configs =>
    match grads.lookup p, configs.lookup p with
    | some dw, some config =>
      let r := upd w dw config
      match updateLoop upd rest grads (assocSet configs p r.2) with
      | none => none
      | some pc => some ((p, r.1) :: pc.1, pc.2)
    | _, _ => none

/-- `Solver._step`: call the gradient mechanism on the loss closure with
the current parameter values in mapping order, zip the returned gradients
with the parameter names (`grads = dict(zip(param_keys, grad_arrays))`),
append the scalar loss to `loss_history`, and run the per-parameter update
loop. -/
def stepFn {α β : Type} (c : Collab α β) (batch : β) (s : SolverState α) :
    Option (SolverState α) :=
  let paramKeys := s.params.map Prod.fst
  let paramArrays := s.params.map Prod.snd
  let gl := c.gradAndLoss batch paramArrays
  let grads := paramKeys.zip gl.1
  match updateLoop c.updateRule s.params grads s.optimConfigs with
  | none => none
  | some pc =>
    some { s with
      lossHistory := s.lossHistory ++ [gl.2]
      params := pc.1
      optimConfigs := pc.2 }

/-- The inner loop of an epoch: `for each_batch in self.train_dataiter:
self._step(each_batch)`. The verbose per-iteration loss print is a logging
side effect only and is not recorded. -/
def runSteps {α β : Type} (c : Collab α β) :
    List β → SolverState α → Option (SolverState α)
  | [], s => some s
  | b :: bs, s =>
    match stepFn c b s with
    | none => none
    | some s' => runSteps c bs s'

/-- First index of the maximal element (`np.argmax`): ties keep the
earlier index. Auxiliary recursion carrying the best value, its index, and
the index of the next element. -/
def argmaxAux (best : ℚ) (bestIdx idx : ℕ) : List ℚ → ℕ
  | [] => bestIdx
  | x :: xs =>
    if best < x then argmaxAux x idx (idx + 1) xs
    else argmaxAux best bestIdx (idx + 1) xs

/-- Index of the first maximal element of a row of scores (`np.argmax`
along axis 1 acts on each row); 0 on an empty row. -/
def argmaxIdx : List ℚ → ℕ
  | [] => 0
  | x :: xs => argmaxAux x 0 1 xs

/-- Matches contributed by one batch in `Solver.check_accuracy`:
`np.sum(np.argmax(predict, axis=1) == each_batch.label[0])` — the number
of examples whose argmax-predicted class equals their label. -/
def batchMatches {α β : Type} (c : Collab α β) (params : Params α)
    (b : β) : ℕ :=
  (((c.forward params b).map argmaxIdx).zip (c.labelsOf b)).countP
    fun pl => pl.1 == pl.2

/-- The accumulation loop of `Solver.check_accuracy` over a chosen
iterator: sum the per-batch matches into `acc_count`, add the iterator's
configured `batch_size` to the examples-seen counter for every batch, and
return `float(acc_count) / num_samples`. A zero denominator is Python's
`ZeroDivisionError`, modelled as `none`. -/
def evalAccuracy {α β : Type} (c : Collab α β) (params : Params α)
    (it : DataIter β) : Option ℚ :=
  let accCount := (it.batches.map (batchMatches c params)).sum
  let numSeen := it.batches.length * it.batchSize
  if numSeen = 0 then none
  else some ((accCount : ℚ) / (numSeen : ℚ))

/-- `Solver.check_accuracy(dataiter, num_samples, batch_size)`: when
`num_samples` is given and the iterator's `num_data` strictly exceeds it,
evaluate over `dataiter.getsubiter(num_samples)` (passed in as the
external iterator's method `sub`); otherwise evaluate over the full
iterator. The `batchSizeArg` parameter mirrors the method's `batch_size`
argument, which the source accepts but never uses. -/
def checkAccuracy {α β : Type} (c : Collab α β) (params : Params α)
    (it : DataIter β) (numSamples : Option ℕ) (sub : ℕ → DataIter β)
    (_batchSizeArg : ℕ) : Option ℚ :=
  let checkIter :=
    match numSamples with
    | some n => if n < it.numData then sub n else it
    | none => it
  evalAccuracy c params checkIter

/-- The learning-rate decay applied to one parameter's optimizer config:
`self.optim_configs[k]['learning_rate'] *= self.lr_decay`. A config with
no `learning_rate` key raises `KeyError`, modelled as `none`. -/
def decayConfig (d : ℚ) (cfg : OptimConfig) : Option OptimConfig :=
  if cfg.any (fun kv => kv.1 == "learning_rate") then
    some (cfg.map fun kv =>
      if kv.1 == "learning_rate" then (kv.1, kv.2 * d) else kv)
  else none

/-- The decay loop at the end of each epoch:
`for k in self.optim_configs: self.optim_configs[k]['learning_rate'] *= self.lr_decay`. -/
def decayAll (d : ℚ) : List (String × OptimConfig) →
    Option (List (String × OptimConfig))
  | [] => some []
  | (p, cfg) :: rest =>
    match decayConfig d cfg, decayAll d rest with
    | some cfg', some rest' => some ((p, cfg') :: rest')
    | _, _ => none

/-- Everything `Solver.train` reads: the collaborators, both iterators
with the training iterator's `getsubiter` method (the validation call
passes `num_samples=None`, so its `getsubiter` is never consulted, but the
method exists on that iterator too), and the configuration recorded by the
constructor. -/
structure TrainSetup (α β : Type) where
  collab : Collab α β
  trainIter : DataIter β
  testIter : DataIter β
  trainSub : ℕ → DataIter β
  testSub : ℕ → DataIter β
  lrDecay : ℚ
  numEpochs : ℕ
  batchSize : ℕ
  verbose : Bool

/-- One iteration of the epoch loop of `Solver.train`, in source order:
step over every training batch; compute
`train_acc = check_accuracy(train_dataiter, num_samples=1000, batch_size=batch_size)`
and `val_acc = check_accuracy(test_dataiter, batch_size=batch_size)`;
append both to their histories; reset both iterators (the identity on
`List`-backed iterators); if verbose, record the epoch summary built from
the never-incremented field `self.epoch`; if `val_acc > best_val_acc`,
replace `best_val_acc` and rebuild `best_params` as a fresh mapping
holding every current parameter's value; finally decay every stored
learning rate. -/
def runEpoch {α β : Type} (T : TrainSetup α β) (s : SolverState α) :
    Option (SolverState α) :=
  match runSteps T.collab T.trainIter.batches s with
  | none => none
  | some s1 =>
    match checkAccuracy T.collab s1.params T.trainIter (some 1000)
        T.trainSub T.batchSize with
    | none => none
    | some trainAcc =>
      match checkAccuracy T.collab s1.params T.testIter none
          T.testSub T.batchSize with
      | none => none
      | some valAcc =>
        let s2 := { s1 with
          trainAccHistory := s1.trainAccHistory ++ [trainAcc]
          valAccHistory := s1.valAccHistory ++ [valAcc] }
        let s3 :=
          if T.verbose then
            { s2 with epochLogs := s2.epochLogs ++
                [{ epochIdx := s2.epoch, totalEpochs := T.numEpochs,
                   trainAcc := trainAcc, valAcc := valAcc }] }
          else s2
        let s4 :=
          if s3.bestValAcc < valAcc then
            { s3 with bestValAcc := valAcc, bestParams := s3.params }
          else s3
        match decayAll T.lrDecay s4.optimConfigs with
        | none => none
        | some cfgs => some { s4 with optimConfigs := cfgs }

/-- The first `k` iterations of the epoch loop (`for epoch in
xrange(self.num_epochs)`), peeling the last epoch. -/
def runEpochs {α β : Type} (T : TrainSetup α β) :
    ℕ → SolverState α → Option (SolverState α)
  | 0, s => some s
  | k + 1, s =>
    match runEpochs T k s with
    | none => none
    | some s' => runEpoch T s'

/-- `Solver.train`: run all `num_epochs` epochs, then
`self.model.params = self.best_params`. -/
def train {α β : Type} (T : TrainSetup α β) (s : SolverState α) :
    Option (SolverState α) :=
  match runEpochs T T.numEpochs s with
  | none => none
  | some s' => some { s' with params := s'.bestParams }

/-- The keyword arguments recognized by `Solver.__init__`. -/
def recognizedOptions : List String :=
  ["init_rule", "init_config", "update_rule", "optim_config", "lr_decay",
   "batch_size", "num_epochs", "print_every", "verbose"]

/-- The construction-time failures of `Solver.__init__`: leftover keyword
arguments (`'Unrecognized arguments %s'`) and a rule name absent from its
registry (`'Invalid update_rule "%s"'` / `'Invalid init_rule "%s"'`). -/
inductive SolverError where
  | unrecognizedOption (keys : List String)
  | unknownRule (name : String)
  deriving Repr, DecidableEq

/-- The rule names a successful construction resolves. -/
structure SolverRules where
  updateRule : String
  initRule : String
  deriving Repr, DecidableEq

/-- The keys of a keyword-argument mapping that survive the `kwargs.pop`
calls of `Solver.__init__` — the keys outside the recognized option set. -/
def unrecognizedKeys (kwargs : List (String × String)) : List String :=
  (kwargs.filter fun kv => !(recognizedOptions.contains kv.1)).map Prod.fst

/-- The validation logic of `Solver.__init__`: after popping every
recognized option, raise `ValueError('Unrecognized arguments ...')` if any
keyword argument is left; then resolve `update_rule` (default `'sgd'`) in
the `optim` registry and `init_rule` (default `'xavier'`) in the `init`
registry, raising `ValueError('Invalid ..._rule ...')` for a name the
registry lacks. Registries are the name sets of the external `optim` /
`init` modules; option values are abstracted to strings, since the
validation logic only ever inspects the two rule names. -/
def solverNew (optimRegistry initRegistry : List String)
    (kwargs : List (String × String)) : Except SolverError SolverRules :=
  let extra := kwargs.filter fun kv => !(recognizedOptions.contains kv.1)
  if extra.isEmpty then
    let updateRule := ((kwargs.lookup "update_rule").getD "sgd")
    if updateRule ∈ optimRegistry then
      let initRule := ((kwargs.lookup "init_rule").getD "xavier")
      if initRule ∈ initRegistry then
        .ok { updateRule := updateRule, initRule := initRule }
      else .error (.unknownRule initRule)
    else .error (.unknownRule updateRule)
  else .error (.unrecognizedOption (extra.map Prod.fst))

/- Concrete instantiations, used to evaluate the embedding on explicit
   inputs. -/

/-- A concrete collaborator bundle: gradient 1 for every parameter, loss
1, an SGD-style update `w - dw` that returns the optimizer state
unchanged, a model that always scores class 0 highest, and labels that
are all class 0 — so every batch is fully correct. -/
def demoCollabHit : Collab ℚ ℕ :=
  { gradAndLoss := fun _ ws => (ws.map fun _ => 1, 1)
    updateRule := fun w dw cfg => (w - dw, cfg)
    forward := fun _ _ => [[1, 0]]
    labelsOf := fun _ => [0] }

/-- As `demoCollabHit`, but every label is class 1, so every batch is
fully wrong and every accuracy is 0. -/
def demoCollabMiss : Collab ℚ ℕ :=
  { demoCollabHit with labelsOf := fun _ => [1] }

/-- A one-batch iterator holding one item, with batch size 1. -/
def demoIter : DataIter ℕ :=
  { batches := [0], numData := 1, batchSize := 1 }

/-- A 20-batch iterator of 200 items with batch size 10. -/
def demoIter200 : DataIter ℕ :=
  { batches := List.replicate 20 0, numData := 200, batchSize := 10 }

/-- A degenerate `getsubiter` method: every bounded prefix is the
one-batch iterator. -/
def demoSub : ℕ → DataIter ℕ := fun _ => demoIter

/-- A three-epoch training setup over `demoCollabHit` with decay 1/2. -/
def demoSetupHit : TrainSetup ℚ ℕ :=
  { collab := demoCollabHit, trainIter := demoIter, testIter := demoIter
    trainSub := demoSub, testSub := demoSub
    lrDecay := 1/2, numEpochs := 3, batchSize := 1, verbose := true }

/-- A one-epoch training setup over `demoCollabMiss`. -/
def demoSetupMiss : TrainSetup ℚ ℕ :=
  { demoSetupHit with collab := demoCollabMiss, numEpochs := 1 }

/-- The reset state for two parameters `w1`, `w2` initialized to 0, with
base optimizer config `{learning_rate: 1/10}` and empty init config. -/
abbrev demoS0 : SolverState ℚ :=
  resetState ["w1", "w2"] [("learning_rate", 1/10)] []
    [("w1", 0), ("w2", 0)]

/- Structural lemmas: what one step, one epoch, and the epoch loop do to
   each state field. -/

/-- A single `_step` leaves every field except `params`, `optimConfigs`
and `lossHistory` unchanged, and appends exactly one scalar to
`lossHistory`. -/
theorem stepFn_parts {α β : Type} (c : Collab α β) (b : β)
    (s s' : SolverState α) (h : stepFn c b s = some s') :
    s'.valAccHistory = s.valAccHistory ∧
    s'.trainAccHistory = s.trainAccHistory ∧
    s'.bestValAcc = s.bestValAcc ∧
    s'.bestParams = s.bestParams ∧
    s'.epoch = s.epoch ∧
    s'.epochLogs = s.epochLogs ∧
    s'.initConfigs = s.initConfigs ∧
    ∃ l, s'.lossHistory = s.lossHistory ++ [l] := by
  simp only [stepFn] at h
  split at h
  · exact absurd h (by simp)
  · cases h
    refine ⟨rfl, rfl, rfl, rfl, rfl, rfl, rfl, ⟨_, rfl⟩⟩

/-- Iterating `_step` over a list of batches preserves the evaluation
bookkeeping and appends one loss per batch. -/
theorem runSteps_parts {α β : Type} (c : Collab α β) (bs : List β)
    (s s' : SolverState α) (h : runSteps c bs s = some s') :
    s'.valAccHistory = s.valAccHistory ∧
    s'.trainAccHistory = s.trainAccHistory ∧
    s'.bestValAcc = s.bestValAcc ∧
    s'.bestParams = s.bestParams ∧
    s'.epoch = s.epoch ∧
    s'.epochLogs = s.epochLogs ∧
    s'.initConfigs = s.initConfigs ∧
    s'.lossHistory.length = s.lossHistory.length + bs.length := by
  induction bs generalizing s with
  | nil =>
    simp only [runSteps] at h
    cases h
    simp
  | cons b bs ih =>
    simp only [runSteps] at h
    split at h
    · exact absurd h (by simp)
    · rename_i s1 hstep
      obtain ⟨h1, h2, h3, h4, h5, h6, h7, l, h8⟩ := stepFn_parts c b s s1 hstep
      obtain ⟨g1, g2, g3, g4, g5, g6, g7, g8⟩ := ih s1 h
      refine ⟨g1.trans h1, g2.trans h2, g3.trans h3, g4.trans h4,
        g5.trans h5, g6.trans h6, g7.trans h7, ?_⟩
      rw [g8, h8]
      simp [Nat.add_assoc, Nat.add_comm 1 bs.length]

/-- Inversion for one unfolding of the epoch loop. -/
theorem runEpochs_succ_inv {α β : Type} (T : TrainSetup α β) (k : ℕ)
    (s0 s' : SolverState α) (h : runEpochs T (k + 1) s0 = some s') :
    ∃ s, runEpochs T k s0 = some s ∧ runEpoch T s = some s' := by
  simp only [runEpochs] at h
  split at h
  · exact absurd h (by simp)
  · rename_i s hs
    exact ⟨s, hs, h⟩

/-- Decomposition of one epoch of `Solver.train`: the stepped state `s1`,
the two accuracies, the decayed optimizer configs, and how every field of
the post-epoch state arises from them. -/
theorem runEpoch_parts {α β : Type} (T : TrainSetup α β)
    (s s' : SolverState α) (h : runEpoch T s = some s') :
    ∃ s1 trainAcc valAcc cfgs,
      runSteps T.collab T.trainIter.batches s = some s1 ∧
      checkAccuracy T.collab s1.params T.trainIter (some 1000)
        T.trainSub T.batchSize = some trainAcc ∧
      checkAccuracy T.collab s1.params T.testIter none
        T.testSub T.batchSize = some valAcc ∧
      decayAll T.lrDecay s1.optimConfigs = some cfgs ∧
      s'.params = s1.params ∧
      s'.optimConfigs = cfgs ∧
      s'.initConfigs = s1.initConfigs ∧
      s'.lossHistory = s1.lossHistory ∧
      s'.trainAccHistory = s1.trainAccHistory ++ [trainAcc] ∧
      s'.valAccHistory = s1.valAccHistory ++ [valAcc] ∧
      s'.bestValAcc = max s1.bestValAcc valAcc ∧
      s'.bestParams =
        (if s1.bestValAcc < valAcc then s1.params else s1.bestParams) ∧
      s'.epoch = s1.epoch ∧
      s'.epochLogs = s1.epochLogs ++
        (if T.verbose then
          [{ epochIdx := s1.epoch, totalEpochs := T.numEpochs,
             trainAcc := trainAcc, valAcc := valAcc }]
         else []) := by
  simp only [runEpoch] at h
  split at h
  · exact absurd h (by simp)
  rename_i s1 hsteps
  split at h
  · exact absurd h (by simp)
  rename_i trainAcc htrain
  split at h
  · exact absurd h (by simp)
  rename_i valAcc hval
  refine ⟨s1, trainAcc, valAcc, ?_⟩
  cases hv : T.verbose <;> rw [hv] at h <;>
    by_cases himp : s1.bestValAcc < valAcc <;>
      simp only [himp, if_true, if_false, if_pos, if_neg, not_false_iff,
        Bool.false_eq_true, ite_true, ite_false] at h <;>
    · split at h
      · exact absurd h (by simp)
      · cases h
        rename_i cfgs hdecay
        refine ⟨cfgs, hsteps, htrain, hval, hdecay, rfl, rfl, rfl, rfl,
          rfl, rfl, ?_, ?_, rfl, ?_⟩ <;>
          simp [himp, hv, max_eq_right, max_eq_left, le_of_lt, not_lt.mp]

/-- Composition of the epoch loop: running `a + b` epochs is running `a`
epochs and then `b` more. -/
theorem runEpochs_add {α β : Type} (T : TrainSetup α β) (a b : ℕ)
    (s : SolverState α) :
    runEpochs T (a + b) s = (runEpochs T a s).bind fun s' => runEpochs T b s' := by
  induction b with
  | zero => cases h : runEpochs T a s <;> simp [runEpochs, h]
  | succ b ih =>
    have hab : a + (b + 1) = (a + b) + 1 := rfl
    rw [hab]
    simp only [runEpochs, ih]
    cases h : runEpochs T a s <;> simp [runEpochs]

/-- Invariant of the epoch loop driving the best-snapshot claims: the
validation history has one entry per completed epoch, every entry is at
most `best_val_acc`, and either no entry ever beat the initial
`best_val_acc = 0` and the snapshot is untouched, or the snapshot holds
the parameters as they stood at the end of the first epoch whose
validation accuracy equals the current `best_val_acc`. -/
theorem runEpochs_bestInv {α β : Type} (T : TrainSetup α β)
    (s0 : SolverState α) (h0b : s0.bestValAcc = 0)
    (h0h : s0.valAccHistory = []) (k : ℕ) (s : SolverState α)
    (h : runEpochs T k s0 = some s) :
    s.valAccHistory.length = k ∧
    (∀ a ∈ s.valAccHistory, a ≤ s.bestValAcc) ∧
    ((s.bestValAcc = 0 ∧ s.bestParams = s0.bestParams ∧
        ∀ a ∈ s.valAccHistory, a ≤ 0) ∨
     (0 < s.bestValAcc ∧ ∃ e se, e < k ∧
        runEpochs T (e + 1) s0 = some se ∧
        s.bestParams = se.params ∧
        s.valAccHistory[e]? = some s.bestValAcc ∧
        ∀ j < e, ∀ a, s.valAccHistory[j]? = some a → a < s.bestValAcc)) := by
  induction k generalizing s with
  | zero =>
    simp only [runEpochs] at h
    cases h
    simp [h0h, h0b]
  | succ k ih =>
    obtain ⟨t, hk, he⟩ := runEpochs_succ_inv T k s0 s h
    obtain ⟨hlen, hbound, hdisj⟩ := ih t hk
    obtain ⟨s1, ta, va, cfgs, hsteps, _, _, _, hparams, _, _, _, _, hva,
      hbv, hbp, _, _⟩ := runEpoch_parts T t s he
    obtain ⟨hv1, _, hb1, hbp1, _, _, _, _⟩ :=
      runSteps_parts T.collab T.trainIter.batches t s1 hsteps
    rw [hv1] at hva
    rw [hb1] at hbv hbp
    rw [hbp1] at hbp
    have hlen' : s.valAccHistory.length = k + 1 := by simp [hva, hlen]
    by_cases himp : t.bestValAcc < va
    · have hbest : s.bestValAcc = va := by rw [hbv]; exact max_eq_right himp.le
      have hsnap : s.bestParams = s1.params := by rw [hbp]; simp [himp]
      have hpos : 0 < va := by
        rcases hdisj with ⟨hz, _, _⟩ | ⟨hp, _⟩
        · rwa [hz] at himp
        · exact lt_trans hp himp
      refine ⟨hlen', ?_, Or.inr ⟨hbest ▸ hpos, k, s, Nat.lt_succ_self k, h,
        hsnap.trans hparams.symm, ?_, ?_⟩⟩
      · intro a ha
        rw [hva] at ha
        rcases List.mem_append.mp ha with ha | ha
        · exact hbest ▸ le_of_lt (lt_of_le_of_lt (hbound a ha) himp)
        · rw [List.mem_singleton] at ha
          rw [ha, hbest]
      · rw [hva, hbest, ← hlen]
        exact List.getElem?_concat_length _ _
      · intro j hj a hja
        rw [hva, List.getElem?_append_left (hlen ▸ hj)] at hja
        exact hbest ▸ lt_of_le_of_lt (hbound a (List.getElem?_mem hja)) himp
    · have hbest : s.bestValAcc = t.bestValAcc := by
        rw [hbv]; exact max_eq_left (not_lt.mp himp)
      have hsnap : s.bestParams = t.bestParams := by rw [hbp]; simp [himp]
      have hbound' : ∀ a ∈ s.valAccHistory, a ≤ s.bestValAcc := by
        intro a ha
        rw [hva] at ha
        rcases List.mem_append.mp ha with ha | ha
        · exact hbest ▸ hbound a ha
        · rw [List.mem_singleton] at ha
          rw [ha, hbest]
          exact not_lt.mp himp
      refine ⟨hlen', hbound', ?_⟩
      rcases hdisj with ⟨hz, hbp0, hneg⟩ | ⟨hp, e, se, helt, hrun, hbpe, hidx, hmin⟩
      · refine Or.inl ⟨hbest.trans hz, hsnap.trans hbp0, ?_⟩
        intro a ha
        rw [hva] at ha
        rcases List.mem_append.mp ha with ha | ha
        · exact hneg a ha
        · rw [List.mem_singleton] at ha
          rw [ha]
          exact le_of_le_of_eq (not_lt.mp himp) hz
      · refine Or.inr ⟨hbest ▸ hp, e, se, Nat.lt_succ_of_lt helt, hrun,
          hsnap.trans hbpe, ?_, ?_⟩
        · rw [hva, List.getElem?_append_left (hlen ▸ helt), hbest]
          exact hidx
        · intro j hj a hja
          rw [hva, List.getElem?_append_left (hlen ▸ lt_trans hj helt)] at hja
          exact hbest ▸ hmin j hj a hja

/-- Inversion of `train`: a normal completion is a complete run of the
epoch loop followed by the final `self.model.params = self.best_params`. -/
theorem train_inv {α β : Type} (T : TrainSetup α β) (s0 final : SolverState α)
    (h : train T s0 = some final) :
    ∃ sf, runEpochs T T.numEpochs s0 = some sf ∧
      final = { sf with params := sf.bestParams } := by
  simp only [train] at h
  split at h
  · exact absurd h (by simp)
  · rename_i sf hsf
    cases h
    exact ⟨sf, hsf, rfl⟩

/-- Running `m` epochs from any state never decreases `best_val_acc`. -/
theorem runEpochs_best_le {α β : Type} (T : TrainSetup α β) (m : ℕ)
    (s s' : SolverState α) (h : runEpochs T m s = some s') :
    s.bestValAcc ≤ s'.bestValAcc := by
  induction m generalizing s' with
  | zero =>
    simp only [runEpochs] at h
    cases h
    exact le_refl _
  | succ m ih =>
    obtain ⟨t, hm, he⟩ := runEpochs_succ_inv T m s s' h
    obtain ⟨s1, ta, va, cfgs, hsteps, _, _, _, _, _, _, _, _, _, hbv, _, _, _⟩ :=
      runEpoch_parts T t s' he
    obtain ⟨_, _, hb1, _, _, _, _, _⟩ :=
      runSteps_parts T.collab T.trainIter.batches t s1 hsteps
    calc s.bestValAcc ≤ t.bestValAcc := ih t hm
      _ ≤ s'.bestValAcc := by rw [hbv, hb1]; exact le_max_left _ _

/-- Running `k` epochs multiplies the loss history by one loss per
training batch per epoch. -/
theorem runEpochs_loss_len {α β : Type} (T : TrainSetup α β) (k : ℕ)
    (s s' : SolverState α) (h : runEpochs T k s = some s') :
    s'.lossHistory.length = s.lossHistory.length + k * T.trainIter.batches.length := by
  induction k generalizing s' with
  | zero =>
    simp only [runEpochs] at h
    cases h
    simp
  | succ k ih =>
    obtain ⟨t, hk, he⟩ := runEpochs_succ_inv T k s s' h
    obtain ⟨s1, ta, va, cfgs, hsteps, _, _, _, _, _, _, hloss, _, _, _, _, _, _⟩ :=
      runEpoch_parts T t s' he
    obtain ⟨_, _, _, _, _, _, _, hlen1⟩ :=
      runSteps_parts T.collab T.trainIter.batches t s1 hsteps
    rw [hloss, hlen1, ih t hk]
    ring

/-- The `epoch` field survives any number of epochs unchanged, and every
epoch-summary record carries that unchanged value. -/
theorem runEpochs_epoch_logs {α β : Type} (T : TrainSetup α β) (k : ℕ)
    (s s' : SolverState α) (h : runEpochs T k s = some s') :
    s'.epoch = s.epoch ∧
    ∀ l ∈ s'.epochLogs, l ∈ s.epochLogs ∨ l.epochIdx = s.epoch := by
  induction k generalizing s' with
  | zero =>
    simp only [runEpochs] at h
    cases h
    exact ⟨rfl, fun l hl => Or.inl hl⟩
  | succ k ih =>
    obtain ⟨t, hk, he⟩ := runEpochs_succ_inv T k s s' h
    obtain ⟨hep, hlog⟩ := ih t hk
    obtain ⟨s1, ta, va, cfgs, hsteps, _, _, _, _, _, _, _, _, _, _, _, hep', hlog'⟩ :=
      runEpoch_parts T t s' he
    obtain ⟨_, _, _, _, hep1, hlog1, _, _⟩ :=
      runSteps_parts T.collab T.trainIter.batches t s1 hsteps
    refine ⟨by rw [hep', hep1, hep], ?_⟩
    intro l hl
    rw [hlog', hlog1] at hl
    rcases List.mem_append.mp hl with hl | hl
    · exact hlog l hl
    · right
      cases hv : T.verbose <;> rw [hv] at hl <;> simp at hl
      rw [hl]
      exact hep1.trans hep

/-- C1: after `train()` completes normally and at least one epoch's
validation accuracy is strictly greater than 0, the model's parameter
mapping value-equals the parameters as they stood at the end of the epoch
that produced `bestValidationAccuracy` (the first epoch whose validation
accuracy equals it, since replacement is on strict improvement), not the
most-recently-trained values. -/
theorem train_restores_best_epoch_params {α β : Type} (T : TrainSetup α β)
    (paramNames : List String) (optimConfig initConfig : OptimConfig)
    (params0 : Params α) (final : SolverState α)
    (h : train T (resetState paramNames optimConfig initConfig params0) = some final)
    (hpos : ∃ a ∈ final.valAccHistory, 0 < a) :
    ∃ e se, e < T.numEpochs ∧
      runEpochs T (e + 1) (resetState paramNames optimConfig initConfig params0) = some se ∧
      final.valAccHistory[e]? = some final.bestValAcc ∧
      (∀ j < e, ∀ a, final.valAccHistory[j]? = some a → a < final.bestValAcc) ∧
      final.params = se.params := by
  obtain ⟨sf, hsf, hfin⟩ := train_inv T _ final h
  obtain ⟨hlen, hbound, hdisj⟩ :=
    runEpochs_bestInv T _ rfl rfl T.numEpochs sf hsf
  subst hfin
  rcases hdisj with ⟨hz, _, hneg⟩ | ⟨hp, e, se, helt, hrun, hbpe, hidx, hmin⟩
  · obtain ⟨a, ha, hapos⟩ := hpos
    exact absurd hapos (not_lt.mpr (hneg a ha))
  · exact ⟨e, se, helt, hrun, hidx, hmin, hbpe⟩

/-- C5: if `train()` runs to completion and no epoch's validation accuracy
is strictly greater than 0, the final assignment installs the still-empty
`best_params` built by `_reset`, so the model is left with no parameters
at all and every trained parameter value is discarded. -/
theorem no_improvement_empties_params {α β : Type} (T : TrainSetup α β)
    (paramNames : List String) (optimConfig initConfig : OptimConfig)
    (params0 : Params α) (final : SolverState α)
    (h : train T (resetState paramNames optimConfig initConfig params0) = some final)
    (hnone : ∀ a ∈ final.valAccHistory, a ≤ 0) :
    final.params = [] ∧ final.bestParams = [] := by
  obtain ⟨sf, hsf, hfin⟩ := train_inv T _ final h
  obtain ⟨hlen, hbound, hdisj⟩ :=
    runEpochs_bestInv T _ rfl rfl T.numEpochs sf hsf
  subst hfin
  rcases hdisj with ⟨hz, hbp0, _⟩ | ⟨hp, e, se, helt, hrun, hbpe, hidx, hmin⟩
  · exact ⟨hbp0, hbp0⟩
  · have hmem : sf.bestValAcc ∈ sf.valAccHistory := List.getElem?_mem hidx
    exact absurd hp (not_lt.mpr (hnone _ hmem))

/-- C3: `bestValidationAccuracy` always equals the maximum of its initial
value 0 and everything appended to `validationAccuracyHistory` so far, and
is monotonically non-decreasing along the epochs of one `train()` run. -/
theorem best_val_acc_monotone_and_is_max {α β : Type} (T : TrainSetup α β)
    (paramNames : List String) (optimConfig initConfig : OptimConfig)
    (params0 : Params α) :
    (∀ k s, runEpochs T k (resetState paramNames optimConfig initConfig params0) = some s →
        s.bestValAcc = s.valAccHistory.foldl max 0) ∧
    (∀ k k' s s', k ≤ k' →
        runEpochs T k (resetState paramNames optimConfig initConfig params0) = some s →
        runEpochs T k' (resetState paramNames optimConfig initConfig params0) = some s' →
        s.bestValAcc ≤ s'.bestValAcc) := by
  constructor
  · intro k
    induction k with
    | zero =>
      intro s h
      simp only [runEpochs] at h
      cases h
      simp [resetState]
    | succ k ih =>
      intro s h
      obtain ⟨t, hk, he⟩ := runEpochs_succ_inv T k _ s h
      obtain ⟨s1, ta, va, cfgs, hsteps, _, _, _, _, _, _, _, _, hva, hbv, _, _, _⟩ :=
        runEpoch_parts T t s he
      obtain ⟨hv1, _, hb1, _, _, _, _, _⟩ :=
        runSteps_parts T.collab T.trainIter.batches t s1 hsteps
      rw [hbv, hb1, hva, hv1, ih t hk, List.foldl_append]
      simp
  · intro k k' s s' hkk hk hk'
    obtain ⟨m, rfl⟩ := Nat.exists_eq_add_of_le hkk
    rw [runEpochs_add, hk] at hk'
    exact runEpochs_best_le T m s s' hk'

/-- C4: within one epoch, `bestValidationAccuracy` and the best-parameter
snapshot are replaced exactly when the epoch's validation accuracy
strictly exceeds the current best, the replacement being a fresh mapping
holding every current parameter value; and a `numEpochs = 1` run whose
single validation accuracy is exactly 0 never triggers a snapshot, since
the initial best is 0 and the comparison is strict. -/
theorem snapshot_iff_strict_improvement {α β : Type} (T : TrainSetup α β) :
    (∀ s s' : SolverState α, runEpoch T s = some s' →
      ∃ va, s'.valAccHistory = s.valAccHistory ++ [va] ∧
        (s.bestValAcc < va → s'.bestParams = s'.params ∧ s'.bestValAcc = va) ∧
        (¬ s.bestValAcc < va → s'.bestParams = s.bestParams ∧
          s'.bestValAcc = s.bestValAcc)) ∧
    (∀ (paramNames : List String) (optimConfig initConfig : OptimConfig)
        (params0 : Params α) (final : SolverState α),
      T.numEpochs = 1 →
      train T (resetState paramNames optimConfig initConfig params0) = some final →
      final.valAccHistory = [0] →
      final.bestParams = [] ∧ final.params = []) := by
  constructor
  · intro s s' he
    obtain ⟨s1, ta, va, cfgs, hsteps, _, _, _, hparams, _, _, _, _, hva, hbv, hbp, _, _⟩ :=
      runEpoch_parts T s s' he
    obtain ⟨hv1, _, hb1, hbp1, _, _, _, _⟩ :=
      runSteps_parts T.collab T.trainIter.batches s s1 hsteps
    rw [hv1] at hva
    rw [hb1] at hbv hbp
    rw [hbp1] at hbp
    refine ⟨va, hva, ?_, ?_⟩
    · intro himp
      rw [hbp, if_pos himp, hbv, hparams]
      exact ⟨rfl, max_eq_right himp.le⟩
    · intro himp
      rw [hbp, if_neg himp, hbv]
      exact ⟨rfl, max_eq_left (not_lt.mp himp)⟩
  · intro paramNames optimConfig initConfig params0 final hone h hhist
    obtain ⟨sf, hsf, hfin⟩ := train_inv T _ final h
    obtain ⟨hlen, hbound, hdisj⟩ :=
      runEpochs_bestInv T _ rfl rfl T.numEpochs sf hsf
    subst hfin
    rcases hdisj with ⟨hz, hbp0, _⟩ | ⟨hp, e, se, helt, hrun, hbpe, hidx, hmin⟩
    · exact ⟨hbp0, hbp0⟩
    · have hmem : sf.bestValAcc ∈ sf.valAccHistory := List.getElem?_mem hidx
      rw [hhist, List.mem_singleton] at hmem
      rw [hmem] at hp
      exact absurd hp (lt_irrefl 0)

/-- C6: assuming no collaborator failure, each call to `_step` appends
exactly one scalar to `loss_history`, so after `train()` its length is the
epoch count times the training iterator's batches per full pass. -/
theorem loss_history_counts_all_batches {α β : Type} (T : TrainSetup α β)
    (paramNames : List String) (optimConfig initConfig : OptimConfig)
    (params0 : Params α) :
    (∀ (b : β) (s s' : SolverState α), stepFn T.collab b s = some s' →
      ∃ l, s'.lossHistory = s.lossHistory ++ [l]) ∧
    (∀ final : SolverState α,
      train T (resetState paramNames optimConfig initConfig params0) = some final →
      final.lossHistory.length = T.numEpochs * T.trainIter.getnumiterations) := by
  constructor
  · intro b s s' h
    exact (stepFn_parts T.collab b s s' h).2.2.2.2.2.2.2
  · intro final h
    obtain ⟨sf, hsf, hfin⟩ := train_inv T _ final h
    subst hfin
    have := runEpochs_loss_len T T.numEpochs _ sf hsf
    simpa [resetState, DataIter.getnumiterations] using this

/-- C10: the `epoch` bookkeeping field is set to 0 by `_reset` and never
modified again — not by `_step`, not by any epoch, not by `train()` — so
every epoch-summary observation reports epoch index 0. -/
theorem epoch_field_never_advances {α β : Type} (T : TrainSetup α β)
    (paramNames : List String) (optimConfig initConfig : OptimConfig)
    (params0 : Params α) :
    (resetState paramNames optimConfig initConfig params0).epoch = 0 ∧
    (∀ (b : β) (s s' : SolverState α), stepFn T.collab b s = some s' →
      s'.epoch = s.epoch) ∧
    (∀ s s' : SolverState α, runEpoch T s = some s' → s'.epoch = s.epoch) ∧
    (∀ final : SolverState α,
      train T (resetState paramNames optimConfig initConfig params0) = some final →
      final.epoch = 0 ∧ ∀ l ∈ final.epochLogs, l.epochIdx = 0) := by
  refine ⟨rfl, ?_, ?_, ?_⟩
  · intro b s s' h
    exact (stepFn_parts T.collab b s s' h).2.2.2.2.1
  · intro s s' h
    obtain ⟨s1, ta, va, cfgs, hsteps, _, _, _, _, _, _, _, _, _, _, _, hep, _⟩ :=
      runEpoch_parts T s s' h
    rw [hep, (runSteps_parts T.collab T.trainIter.batches s s1 hsteps).2.2.2.2.1]
  · intro final h
    obtain ⟨sf, hsf, hfin⟩ := train_inv T _ final h
    obtain ⟨hep, hlog⟩ := runEpochs_epoch_logs T T.numEpochs _ sf hsf
    subst hfin
    refine ⟨hep, ?_⟩
    intro l hl
    rcases hlog l hl with hl0 | hl0
    · simp [resetState] at hl0
    · exact hl0

/-- A successful association-list lookup comes from an entry of the list. -/
theorem lookup_mem_assoc {γ : Type} (k : String) (l : List (String × γ)) (v : γ)
    (h : List.lookup k l = some v) : (k, v) ∈ l := by
  induction l with
  | nil => simp [List.lookup] at h
  | cons kv rest ih =>
    obtain ⟨k', v'⟩ := kv
    rw [List.lookup] at h
    cases hbe : (k == k') <;> rw [hbe] at h
    · exact List.mem_cons_of_mem _ (ih h)
    · cases h
      rw [eq_of_beq hbe]
      exact List.mem_cons_self _ _

/-- Multiplying the `learning_rate` entries of a config multiplies the
looked-up learning rate. -/
theorem lookup_decay_map (d : ℚ) (cfg : OptimConfig) (v : ℚ)
    (hv : List.lookup "learning_rate" cfg = some v) :
    List.lookup "learning_rate"
      (cfg.map fun kv =>
        if kv.1 == "learning_rate" then (kv.1, kv.2 * d) else kv) =
      some (v * d) := by
  induction cfg with
  | nil => simp [List.lookup] at hv
  | cons kv rest ih =>
    obtain ⟨k, x⟩ := kv
    rw [List.lookup] at hv
    cases hbe : ("learning_rate" == k) <;> rw [hbe] at hv
    · have hk : (k == "learning_rate") = false := by
        cases hk' : (k == "learning_rate")
        · rfl
        · rw [eq_of_beq hk'] at hbe
          simp at hbe
      simp only [List.map, hk, if_neg, Bool.false_eq_true, ite_false]
      rw [List.lookup, hbe]
      exact ih hv
    · cases hv
      have hkeq : k = "learning_rate" := (eq_of_beq hbe).symm
      subst hkeq
      simp [List.lookup]

/-- The per-config decay step multiplies the looked-up learning rate by
the decay factor. -/
theorem decayConfig_lookup (d : ℚ) (cfg cfg' : OptimConfig)
    (h : decayConfig d cfg = some cfg') (v : ℚ)
    (hv : List.lookup "learning_rate" cfg = some v) :
    List.lookup "learning_rate" cfg' = some (v * d) := by
  simp only [decayConfig] at h
  split at h
  · cases h
    exact lookup_decay_map d cfg v hv
  · exact absurd h (by simp)

/-- The end-of-epoch decay loop multiplies every stored learning rate by
the decay factor. -/
theorem decayAll_lookup (d : ℚ) (configs configs' : List (String × OptimConfig))
    (h : decayAll d configs = some configs') (v : ℚ)
    (hv : ∀ pc ∈ configs, List.lookup "learning_rate" pc.2 = some v) :
    ∀ pc ∈ configs', List.lookup "learning_rate" pc.2 = some (v * d) := by
  induction configs generalizing configs' with
  | nil =>
    simp only [decayAll] at h
    cases h
    simp
  | cons pcfg rest ih =>
    obtain ⟨p, cfg⟩ := pcfg
    simp only [decayAll] at h
    cases hdc : decayConfig d cfg <;> rw [hdc] at h
    · exact absurd h (by simp)
    cases hda : decayAll d rest <;> rw [hda] at h
    · exact absurd h (by simp)
    cases h
    intro pc hpc
    rcases List.mem_cons.mp hpc with hpc | hpc
    · rw [hpc]
      exact decayConfig_lookup d cfg _ hdc v (hv (p, cfg) (List.mem_cons_self _ _))
    · exact ih _ hda (fun q hq => hv q (List.mem_cons_of_mem _ hq)) pc hpc

/-- Rebinding one key of an association list preserves a pointwise lookup
property when the new value satisfies it. -/
theorem assocSet_lookup_pres (configs : List (String × OptimConfig))
    (p : String) (nc : OptimConfig) (v : ℚ)
    (hv : ∀ pc ∈ configs, List.lookup "learning_rate" pc.2 = some v)
    (hnc : List.lookup "learning_rate" nc = some v) :
    ∀ pc ∈ assocSet configs p nc,
      List.lookup "learning_rate" pc.2 = some v := by
  intro pc hpc
  simp only [assocSet, List.mem_map] at hpc
  obtain ⟨kv, hkv, hf⟩ := hpc
  by_cases hk : (kv.1 == p) = true
  · rw [if_pos hk] at hf
    rw [← hf]
    exact hnc
  · rw [if_neg hk] at hf
    rw [← hf]
    exact hv kv hkv

/-- The parameter-update loop of `_step` preserves every stored learning
rate whenever the update rule preserves the `learning_rate` entry of the
optimizer state it returns. -/
theorem updateLoop_lookup_pres {α : Type}
    (upd : α → α → OptimConfig → α × OptimConfig)
    (Hpres : ∀ w dw cfg, List.lookup "learning_rate" (upd w dw cfg).2 =
      List.lookup "learning_rate" cfg) (v : ℚ) :
    ∀ (params grads : Params α) (configs : List (String × OptimConfig))
      (out : Params α × List (String × OptimConfig)),
      updateLoop upd params grads configs = some out →
      (∀ pc ∈ configs, List.lookup "learning_rate" pc.2 = some v) →
      ∀ pc ∈ out.2, List.lookup "learning_rate" pc.2 = some v := by
  intro params
  induction params with
  | nil =>
    intro grads configs out h hv
    simp only [updateLoop] at h
    cases h
    exact hv
  | cons pw rest ih =>
    intro grads configs out h hv
    obtain ⟨p, w⟩ := pw
    simp only [updateLoop] at h
    split at h
    · rename_i dw config hg hc
      split at h
      · exact absurd h (by simp)
      · rename_i pc2 hrec
        cases h
        have hcfg : List.lookup "learning_rate" config = some v :=
          hv (p, config) (lookup_mem_assoc p configs config hc)
        have hnc : List.lookup "learning_rate" (upd w dw config).2 = some v :=
          (Hpres w dw config).trans hcfg
        exact ih grads _ pc2 hrec (assocSet_lookup_pres configs p _ v hv hnc)
    · exact absurd h (by simp)

/-- A single `_step` preserves every stored learning rate under a
learning-rate-preserving update rule. -/
theorem stepFn_lookup_pres {α β : Type} (c : Collab α β)
    (Hpres : ∀ w dw cfg,
      List.lookup "learning_rate" (c.updateRule w dw cfg).2 =
        List.lookup "learning_rate" cfg)
    (v : ℚ) (b : β) (s s' : SolverState α) (h : stepFn c b s = some s')
    (hv : ∀ pc ∈ s.optimConfigs, List.lookup "learning_rate" pc.2 = some v) :
    ∀ pc ∈ s'.optimConfigs, List.lookup "learning_rate" pc.2 = some v := by
  simp only [stepFn] at h
  split at h
  · exact absurd h (by simp)
  · rename_i pc hu
    cases h
    exact updateLoop_lookup_pres c.updateRule Hpres v _ _ _ pc hu hv

/-- The step loop of one epoch preserves every stored learning rate under
a learning-rate-preserving update rule. -/
theorem runSteps_lookup_pres {α β : Type} (c : Collab α β)
    (Hpres : ∀ w dw cfg,
      List.lookup "learning_rate" (c.updateRule w dw cfg).2 =
        List.lookup "learning_rate" cfg)
    (v : ℚ) (bs : List β) (s s' : SolverState α) (h : runSteps c bs s = some s')
    (hv : ∀ pc ∈ s.optimConfigs, List.lookup "learning_rate" pc.2 = some v) :
    ∀ pc ∈ s'.optimConfigs, List.lookup "learning_rate" pc.2 = some v := by
  induction bs generalizing s with
  | nil =>
    simp only [runSteps] at h
    cases h
    exact hv
  | cons b bs ih =>
    simp only [runSteps] at h
    split at h
    · exact absurd h (by simp)
    · rename_i s1 hstep
      exact ih s1 h (stepFn_lookup_pres c Hpres v b s s1 hstep hv)

/-- One epoch multiplies every stored learning rate by the decay factor,
under a learning-rate-preserving update rule. -/
theorem runEpoch_lookup {α β : Type} (T : TrainSetup α β)
    (Hpres : ∀ w dw cfg,
      List.lookup "learning_rate" (T.collab.updateRule w dw cfg).2 =
        List.lookup "learning_rate" cfg)
    (v : ℚ) (s s' : SolverState α) (h : runEpoch T s = some s')
    (hv : ∀ pc ∈ s.optimConfigs, List.lookup "learning_rate" pc.2 = some v) :
    ∀ pc ∈ s'.optimConfigs,
      List.lookup "learning_rate" pc.2 = some (v * T.lrDecay) := by
  obtain ⟨s1, ta, va, cfgs, hsteps, _, _, hdecay, _, hcfg, _, _, _, _, _, _, _, _⟩ :=
    runEpoch_parts T s s' h
  have h1 := runSteps_lookup_pres T.collab Hpres v _ s s1 hsteps hv
  intro pc hpc
  rw [hcfg] at hpc
  exact decayAll_lookup T.lrDecay _ cfgs hdecay v h1 pc hpc

/-- C2: after each completed epoch `e` (and in particular after all
`numEpochs` epochs of `train()`), every parameter's stored learning rate
equals `initial_learning_rate * lrDecay ^ e`, assuming the update rule
preserves the `learning_rate` entry of the optimizer state. -/
theorem learning_rate_decay_schedule {α β : Type} (T : TrainSetup α β)
    (paramNames : List String) (optimConfig initConfig : OptimConfig)
    (params0 : Params α) (lr0 : ℚ)
    (Hpres : ∀ w dw cfg,
      List.lookup "learning_rate" (T.collab.updateRule w dw cfg).2 =
        List.lookup "learning_rate" cfg)
    (hlr : List.lookup "learning_rate" optimConfig = some lr0) :
    (∀ e s, runEpochs T e (resetState paramNames optimConfig initConfig params0) = some s →
      ∀ pc ∈ s.optimConfigs,
        List.lookup "learning_rate" pc.2 = some (lr0 * T.lrDecay ^ e)) ∧
    (∀ final : SolverState α,
      train T (resetState paramNames optimConfig initConfig params0) = some final →
      ∀ pc ∈ final.optimConfigs,
        List.lookup "learning_rate" pc.2 = some (lr0 * T.lrDecay ^ T.numEpochs)) := by
  have main : ∀ e s,
      runEpochs T e (resetState paramNames optimConfig initConfig params0) = some s →
      ∀ pc ∈ s.optimConfigs,
        List.lookup "learning_rate" pc.2 = some (lr0 * T.lrDecay ^ e) := by
    intro e
    induction e with
    | zero =>
      intro s h
      simp only [runEpochs] at h
      cases h
      intro pc hpc
      simp only [resetState, List.mem_map] at hpc
      obtain ⟨p, hp, hf⟩ := hpc
      rw [← hf]
      simpa using hlr
    | succ e ih =>
      intro s h
      obtain ⟨t, he, hepoch⟩ := runEpochs_succ_inv T e _ s h
      have := runEpoch_lookup T Hpres (lr0 * T.lrDecay ^ e) t s hepoch (ih t he)
      intro pc hpc
      rw [this pc hpc]
      ring_nf
  refine ⟨main, ?_⟩
  intro final h
  obtain ⟨sf, hsf, hfin⟩ := train_inv T _ final h
  subst hfin
  exact main T.numEpochs sf hsf

/-- C7: `check_accuracy` evaluates over the bounded sub-iterator exactly
when `num_samples` is specified and the iterator's total item count
strictly exceeds it; otherwise it evaluates over the full iterator — in
particular, `num_samples = 1000` on a 200-item iterator evaluates over
the full iterator. -/
theorem check_accuracy_subiter_choice {α β : Type} (c : Collab α β)
    (params : Params α) (it : DataIter β) (sub : ℕ → DataIter β) (bsz : ℕ) :
    (∀ n : ℕ, n < it.numData →
      checkAccuracy c params it (some n) sub bsz = evalAccuracy c params (sub n)) ∧
    (∀ n : ℕ, it.numData ≤ n →
      checkAccuracy c params it (some n) sub bsz = evalAccuracy c params it) ∧
    (checkAccuracy c params it none sub bsz = evalAccuracy c params it) ∧
    (it.numData = 200 →
      checkAccuracy c params it (some 1000) sub bsz = evalAccuracy c params it) := by
  refine ⟨?_, ?_, rfl, ?_⟩
  · intro n hn
    simp [checkAccuracy, hn]
  · intro n hn
    simp [checkAccuracy, not_lt.mpr hn]
  · intro h200
    simp [checkAccuracy, h200]

/-- C8: over an iterator yielding at least one batch (with positive
configured batch size and no batch longer than it), `check_accuracy`
returns the count of examples whose argmax-predicted class equals their
label, divided by an examples-seen count incremented by the configured
batch size per batch, as a fraction in [0, 1]. -/
theorem check_accuracy_ratio {α β : Type} (c : Collab α β) (params : Params α)
    (it : DataIter β) (sub : ℕ → DataIter β) (bsz : ℕ)
    (hne : it.batches ≠ []) (hbs : 0 < it.batchSize)
    (hlen : ∀ b ∈ it.batches, (c.labelsOf b).length ≤ it.batchSize) :
    ∃ r : ℚ, checkAccuracy c params it none sub bsz = some r ∧
      r = ((it.batches.map (batchMatches c params)).sum : ℚ) /
          ((it.batches.length * it.batchSize : ℕ) : ℚ) ∧
      0 ≤ r ∧ r ≤ 1 := by
  have hpos : 0 < it.batches.length * it.batchSize :=
    Nat.mul_pos (List.length_pos.mpr hne) hbs
  have hnz : ¬ (it.batches.length * it.batchSize = 0) := Nat.pos_iff_ne_zero.mp hpos
  have heval : checkAccuracy c params it none sub bsz =
      some (((it.batches.map (batchMatches c params)).sum : ℚ) /
        ((it.batches.length * it.batchSize : ℕ) : ℚ)) := by
    simp only [checkAccuracy, evalAccuracy]
    rw [if_neg hnz]
  have hb : ∀ x ∈ it.batches.map (batchMatches c params), x ≤ it.batchSize := by
    intro x hx
    rw [List.mem_map] at hx
    obtain ⟨b, hbm, rfl⟩ := hx
    simp only [batchMatches]
    calc (((c.forward params b).map argmaxIdx).zip (c.labelsOf b)).countP
          (fun pl => pl.1 == pl.2)
        ≤ (((c.forward params b).map argmaxIdx).zip (c.labelsOf b)).length :=
          List.countP_le_length _
      _ ≤ (c.labelsOf b).length := by
          rw [List.length_zip]
          exact min_le_right _ _
      _ ≤ it.batchSize := hlen b hbm
  have hsum : (it.batches.map (batchMatches c params)).sum ≤
      it.batches.length * it.batchSize := by
    have := List.sum_le_card_nsmul _ it.batchSize hb
    simpa using this
  refine ⟨_, heval, rfl, ?_, ?_⟩
  · exact div_nonneg (Nat.cast_nonneg _) (Nat.cast_nonneg _)
  · rw [div_le_one (by exact_mod_cast hpos)]
    exact_mod_cast hsum

/-- C9: construction fails with `UnrecognizedOption` exactly when the
configuration carries a key outside the recognized set; with no such key,
it fails with `UnknownRule` exactly when either rule name does not resolve
in its registry; and it succeeds exactly when neither condition holds. -/
theorem construction_validation (optimRegistry initRegistry : List String)
    (kwargs : List (String × String)) :
    (unrecognizedKeys kwargs ≠ [] →
      ∃ ks, solverNew optimRegistry initRegistry kwargs =
        .error (.unrecognizedOption ks)) ∧
    (unrecognizedKeys kwargs = [] →
      ((kwargs.lookup "update_rule").getD "sgd" ∉ optimRegistry ∨
       (kwargs.lookup "init_rule").getD "xavier" ∉ initRegistry) →
      ∃ r, solverNew optimRegistry initRegistry kwargs =
        .error (.unknownRule r)) ∧
    ((∃ rules, solverNew optimRegistry initRegistry kwargs = .ok rules) ↔
      (unrecognizedKeys kwargs = [] ∧
       (kwargs.lookup "update_rule").getD "sgd" ∈ optimRegistry ∧
       (kwargs.lookup "init_rule").getD "xavier" ∈ initRegistry)) := by
  have hiso : (kwargs.filter fun kv => !(recognizedOptions.contains kv.1)).isEmpty
      = true ↔ unrecognizedKeys kwargs = [] := by
    simp [unrecognizedKeys, List.isEmpty_iff]
  by_cases hex : unrecognizedKeys kwargs = []
  · have hemp : (kwargs.filter fun kv => !(recognizedOptions.contains kv.1)).isEmpty
        = true := hiso.mpr hex
    by_cases hup : (kwargs.lookup "update_rule").getD "sgd" ∈ optimRegistry
    · by_cases hin : (kwargs.lookup "init_rule").getD "xavier" ∈ initRegistry
      · refine ⟨fun hne => absurd hex hne, fun _ hbad => ?_, ?_⟩
        · rcases hbad with hbad | hbad
          · exact absurd hup hbad
          · exact absurd hin hbad
        · have : solverNew optimRegistry initRegistry kwargs = .ok
              { updateRule := (kwargs.lookup "update_rule").getD "sgd",
                initRule := (kwargs.lookup "init_rule").getD "xavier" } := by
            simp only [solverNew]
            rw [if_pos hemp, if_pos hup, if_pos hin]
          simp [this, hex, hup, hin]
      · have this' : solverNew optimRegistry initRegistry kwargs =
            .error (.unknownRule ((kwargs.lookup "init_rule").getD "xavier")) := by
          simp only [solverNew]
          rw [if_pos hemp, if_pos hup, if_neg hin]
        refine ⟨fun hne => absurd hex hne, fun _ _ => ⟨_, this'⟩, ?_⟩
        simp [this', hin]
    · have this' : solverNew optimRegistry initRegistry kwargs =
          .error (.unknownRule ((kwargs.lookup "update_rule").getD "sgd")) := by
        simp only [solverNew]
        rw [if_pos hemp, if_neg hup]
      refine ⟨fun hne => absurd hex hne, fun _ _ => ⟨_, this'⟩, ?_⟩
      simp [this', hup]
  · have hnemp :
        ¬ ((kwargs.filter fun kv => !(recognizedOptions.contains kv.1)).isEmpty
          = true) := fun hq => hex (hiso.mp hq)
    have this' : solverNew optimRegistry initRegistry kwargs =
        .error (.unrecognizedOption (unrecognizedKeys kwargs)) := by
      simp only [solverNew]
      rw [if_neg hnemp]
      rfl
    refine ⟨fun _ => ⟨_, this'⟩, fun hc => absurd hc hex, ?_⟩
    simp [this', hex]

/- Concrete evaluations of the embedding, used by the witnesses below. -/

theorem beq_w2_w1 : (("w2" : String) == "w1") = false := by decide

theorem beq_w1_w2 : (("w1" : String) == "w2") = false := by decide

theorem ne_w1_w2 : ¬ ("w1" : String) = "w2" := by decide

theorem ne_w2_w1 : ¬ ("w2" : String) = "w1" := by decide

/-- One `_step` of the hit setup from the reset state: loss 1 recorded,
both parameters stepped from 0 to -1. -/
theorem demo_step_hit_eval : stepFn demoCollabHit 0 demoS0 = some
    { params := [("w1", -1), ("w2", -1)]
      optimConfigs := [("w1", [("learning_rate", 1/10)]),
        ("w2", [("learning_rate", 1/10)])]
      initConfigs := [("w1", []), ("w2", [])]
      lossHistory := [1]
      trainAccHistory := []
      valAccHistory := []
      bestValAcc := 0
      bestParams := []
      epoch := 0
      epochLogs := [] } := by
  norm_num [stepFn, updateLoop, assocSet, resetState, demoCollabHit,
    List.lookup, beq_w2_w1, beq_w1_w2, ne_w1_w2, ne_w2_w1]

/-- One epoch of the hit setup from the reset state: accuracy 1 on both
iterators, so the snapshot is taken and the learning rate decays once. -/
theorem demo_epoch_hit_eval : runEpoch demoSetupHit demoS0 = some
    { params := [("w1", -1), ("w2", -1)]
      optimConfigs := [("w1", [("learning_rate", 1/20)]),
        ("w2", [("learning_rate", 1/20)])]
      initConfigs := [("w1", []), ("w2", [])]
      lossHistory := [1]
      trainAccHistory := [1]
      valAccHistory := [1]
      bestValAcc := 1
      bestParams := [("w1", -1), ("w2", -1)]
      epoch := 0
      epochLogs := [{ epochIdx := 0, totalEpochs := 3, trainAcc := 1, valAcc := 1 }] } := by
  norm_num [runEpoch, runSteps, stepFn, updateLoop, assocSet,
    checkAccuracy, evalAccuracy, batchMatches, argmaxIdx, argmaxAux,
    decayAll, decayConfig, resetState, demoSetupHit, demoCollabHit, demoIter,
    demoSub, List.lookup, beq_w2_w1, beq_w1_w2, ne_w1_w2, ne_w2_w1]

/-- Three epochs of the hit setup: later epochs tie the accuracy of epoch
0, so the snapshot keeps epoch 0's parameters while training moves on. -/
theorem demo_epochs3_hit_eval : runEpochs demoSetupHit 3 demoS0 = some
    { params := [("w1", -3), ("w2", -3)]
      optimConfigs := [("w1", [("learning_rate", 1/80)]),
        ("w2", [("learning_rate", 1/80)])]
      initConfigs := [("w1", []), ("w2", [])]
      lossHistory := [1, 1, 1]
      trainAccHistory := [1, 1, 1]
      valAccHistory := [1, 1, 1]
      bestValAcc := 1
      bestParams := [("w1", -1), ("w2", -1)]
      epoch := 0
      epochLogs := [{ epochIdx := 0, totalEpochs := 3, trainAcc := 1, valAcc := 1 },
                    { epochIdx := 0, totalEpochs := 3, trainAcc := 1, valAcc := 1 },
                    { epochIdx := 0, totalEpochs := 3, trainAcc := 1, valAcc := 1 }] } := by
  norm_num [runEpochs, runEpoch, runSteps, stepFn, updateLoop, assocSet,
    checkAccuracy, evalAccuracy, batchMatches, argmaxIdx, argmaxAux,
    decayAll, decayConfig, resetState, demoSetupHit, demoCollabHit, demoIter,
    demoSub, List.lookup, beq_w2_w1, beq_w1_w2, ne_w1_w2, ne_w2_w1]

/-- The full hit training run: the model ends holding epoch 0's
parameters (-1), not the last-trained ones (-3). -/
theorem demo_train_hit_eval : train demoSetupHit demoS0 = some
    { params := [("w1", -1), ("w2", -1)]
      optimConfigs := [("w1", [("learning_rate", 1/80)]),
        ("w2", [("learning_rate", 1/80)])]
      initConfigs := [("w1", []), ("w2", [])]
      lossHistory := [1, 1, 1]
      trainAccHistory := [1, 1, 1]
      valAccHistory := [1, 1, 1]
      bestValAcc := 1
      bestParams := [("w1", -1), ("w2", -1)]
      epoch := 0
      epochLogs := [{ epochIdx := 0, totalEpochs := 3, trainAcc := 1, valAcc := 1 },
                    { epochIdx := 0, totalEpochs := 3, trainAcc := 1, valAcc := 1 },
                    { epochIdx := 0, totalEpochs := 3, trainAcc := 1, valAcc := 1 }] } := by
  norm_num [train, runEpochs, runEpoch, runSteps, stepFn, updateLoop, assocSet,
    checkAccuracy, evalAccuracy, batchMatches, argmaxIdx, argmaxAux,
    decayAll, decayConfig, resetState, demoSetupHit, demoCollabHit, demoIter,
    demoSub, List.lookup, beq_w2_w1, beq_w1_w2, ne_w1_w2, ne_w2_w1]

/-- One epoch of the miss setup: validation accuracy exactly 0, so no
snapshot is taken and `best_params` stays empty. -/
theorem demo_epoch_miss_eval : runEpoch demoSetupMiss demoS0 = some
    { params := [("w1", -1), ("w2", -1)]
      optimConfigs := [("w1", [("learning_rate", 1/20)]),
        ("w2", [("learning_rate", 1/20)])]
      initConfigs := [("w1", []), ("w2", [])]
      lossHistory := [1]
      trainAccHistory := [0]
      valAccHistory := [0]
      bestValAcc := 0
      bestParams := []
      epoch := 0
      epochLogs := [{ epochIdx := 0, totalEpochs := 1, trainAcc := 0, valAcc := 0 }] } := by
  norm_num [runEpoch, runSteps, stepFn, updateLoop, assocSet,
    checkAccuracy, evalAccuracy, batchMatches, argmaxIdx, argmaxAux,
    decayAll, decayConfig, resetState, demoSetupMiss, demoSetupHit,
    demoCollabMiss, demoCollabHit, demoIter, demoSub, List.lookup,
    beq_w2_w1, beq_w1_w2, ne_w1_w2, ne_w2_w1]

/-- The full miss training run: the final swap installs the still-empty
snapshot, discarding every trained parameter. -/
theorem demo_train_miss_eval : train demoSetupMiss demoS0 = some
    { params := []
      optimConfigs := [("w1", [("learning_rate", 1/20)]),
        ("w2", [("learning_rate", 1/20)])]
      initConfigs := [("w1", []), ("w2", [])]
      lossHistory := [1]
      trainAccHistory := [0]
      valAccHistory := [0]
      bestValAcc := 0
      bestParams := []
      epoch := 0
      epochLogs := [{ epochIdx := 0, totalEpochs := 1, trainAcc := 0, valAcc := 0 }] } := by
  norm_num [train, runEpochs, runEpoch, runSteps, stepFn, updateLoop, assocSet,
    checkAccuracy, evalAccuracy, batchMatches, argmaxIdx, argmaxAux,
    decayAll, decayConfig, resetState, demoSetupMiss, demoSetupHit,
    demoCollabMiss, demoCollabHit, demoIter, demoSub, List.lookup,
    beq_w2_w1, beq_w1_w2, ne_w1_w2, ne_w2_w1]

/- Witnesses: the claim theorems applied at the concrete runs above. -/

/-- Witness for C1 on the three-epoch hit run. -/
theorem train_restores_best_epoch_params_witness :
    ∃ final, train demoSetupHit demoS0 = some final ∧
      (∃ a ∈ final.valAccHistory, 0 < a) ∧
      ∃ e se, e < demoSetupHit.numEpochs ∧
        runEpochs demoSetupHit (e + 1) demoS0 = some se ∧
        final.valAccHistory[e]? = some final.bestValAcc ∧
        (∀ j < e, ∀ a, final.valAccHistory[j]? = some a → a < final.bestValAcc) ∧
        final.params = se.params := by
  have heval := demo_train_hit_eval
  have hpos : ∃ a ∈ [(1 : ℚ), 1, 1], 0 < a := ⟨1, by simp, one_pos⟩
  exact ⟨_, heval, hpos,
    train_restores_best_epoch_params demoSetupHit ["w1", "w2"]
      [("learning_rate", 1/10)] [] [("w1", 0), ("w2", 0)] _ heval hpos⟩

/-- Witness for C2: after the three decays the stored learning rate is
`0.1 * 0.5 ^ 3 = 1/80 = 0.0125` for both parameters. -/
theorem learning_rate_decay_schedule_witness :
    ∃ final, train demoSetupHit demoS0 = some final ∧
      ∀ pc ∈ final.optimConfigs,
        List.lookup "learning_rate" pc.2 = some ((1 : ℚ)/80) := by
  have heval := demo_train_hit_eval
  have h := (learning_rate_decay_schedule demoSetupHit ["w1", "w2"]
      [("learning_rate", 1/10)] [] [("w1", 0), ("w2", 0)] (1/10)
      (fun _ _ _ => rfl) rfl).2 _ heval
  refine ⟨_, heval, fun pc hpc => ?_⟩
  rw [h pc hpc]
  norm_num [demoSetupHit]

/-- Witness for C3 comparing the prefixes of 1 and 3 epochs. -/
theorem best_val_acc_monotone_and_is_max_witness :
    ∃ s1 s3, runEpochs demoSetupHit 1 demoS0 = some s1 ∧
      runEpochs demoSetupHit 3 demoS0 = some s3 ∧
      s3.bestValAcc = s3.valAccHistory.foldl max 0 ∧
      s1.bestValAcc ≤ s3.bestValAcc := by
  have h1 : runEpochs demoSetupHit 1 demoS0 = some
      { params := [("w1", -1), ("w2", -1)]
        optimConfigs := [("w1", [("learning_rate", 1/20)]),
          ("w2", [("learning_rate", 1/20)])]
        initConfigs := [("w1", []), ("w2", [])]
        lossHistory := [1]
        trainAccHistory := [1]
        valAccHistory := [1]
        bestValAcc := 1
        bestParams := [("w1", -1), ("w2", -1)]
        epoch := 0
        epochLogs := [{ epochIdx := 0, totalEpochs := 3, trainAcc := 1, valAcc := 1 }] } :=
    demo_epoch_hit_eval
  have h3 := demo_epochs3_hit_eval
  have thm := best_val_acc_monotone_and_is_max demoSetupHit ["w1", "w2"]
    [("learning_rate", 1/10)] [] [("w1", 0), ("w2", 0)]
  exact ⟨_, _, h1, h3, thm.1 3 _ h3, thm.2 1 3 _ _ (by norm_num) h1 h3⟩

/-- Witness for C4 on the miss setup: validation accuracy exactly 0 with
initial best 0 triggers no snapshot. -/
theorem snapshot_iff_strict_improvement_witness :
    ∃ s' final, runEpoch demoSetupMiss demoS0 = some s' ∧
      (∃ va, s'.valAccHistory = demoS0.valAccHistory ++ [va] ∧
        ¬ demoS0.bestValAcc < va ∧ s'.bestParams = demoS0.bestParams) ∧
      demoSetupMiss.numEpochs = 1 ∧
      train demoSetupMiss demoS0 = some final ∧
      final.valAccHistory = [0] ∧
      final.bestParams = [] ∧ final.params = [] := by
  have hep := demo_epoch_miss_eval
  have htr := demo_train_miss_eval
  have thm := snapshot_iff_strict_improvement (β := ℕ) demoSetupMiss
  obtain ⟨va, hva, _, hnoimp⟩ := thm.1 demoS0 _ hep
  have hva0 : va = 0 := by
    simp [resetState] at hva
    exact hva.symm
  subst hva0
  have hn : ¬ demoS0.bestValAcc < 0 := by simp [resetState]
  obtain ⟨hbp, _⟩ := hnoimp hn
  obtain ⟨hfbp, hfp⟩ := thm.2 ["w1", "w2"] [("learning_rate", 1/10)] []
    [("w1", 0), ("w2", 0)] _ rfl htr rfl
  exact ⟨_, _, hep, ⟨0, hva, hn, hbp⟩, rfl, htr, rfl, hfbp, hfp⟩

/-- Witness for C5 on the miss setup: every accuracy is 0, so training
ends with an empty parameter mapping. -/
theorem no_improvement_empties_params_witness :
    ∃ final, train demoSetupMiss demoS0 = some final ∧
      (∀ a ∈ final.valAccHistory, a ≤ 0) ∧
      final.params = [] ∧ final.bestParams = [] := by
  have htr := demo_train_miss_eval
  have hnone : ∀ a ∈ [(0 : ℚ)], a ≤ 0 := by simp
  exact ⟨_, htr, hnone,
    no_improvement_empties_params demoSetupMiss ["w1", "w2"]
      [("learning_rate", 1/10)] [] [("w1", 0), ("w2", 0)] _ htr hnone⟩

/-- Witness for C6 on the hit run: one step appends one loss, and 3
epochs of 1 batch give 3 losses. -/
theorem loss_history_counts_all_batches_witness :
    ∃ s' final, stepFn demoSetupHit.collab 0 demoS0 = some s' ∧
      (∃ l, s'.lossHistory = demoS0.lossHistory ++ [l]) ∧
      train demoSetupHit demoS0 = some final ∧
      final.lossHistory.length =
        demoSetupHit.numEpochs * demoSetupHit.trainIter.getnumiterations := by
  have hstep : stepFn demoSetupHit.collab 0 demoS0 = some
      { params := [("w1", -1), ("w2", -1)]
        optimConfigs := [("w1", [("learning_rate", 1/10)]),
          ("w2", [("learning_rate", 1/10)])]
        initConfigs := [("w1", []), ("w2", [])]
        lossHistory := [1]
        trainAccHistory := []
        valAccHistory := []
        bestValAcc := 0
        bestParams := []
        epoch := 0
        epochLogs := [] } := demo_step_hit_eval
  have heval := demo_train_hit_eval
  have thm := loss_history_counts_all_batches demoSetupHit ["w1", "w2"]
    [("learning_rate", 1/10)] [] [("w1", 0), ("w2", 0)]
  exact ⟨_, _, hstep, thm.1 0 demoS0 _ hstep, heval, thm.2 _ heval⟩

/-- Witness for C7 on a 200-item iterator: `num_samples = 1000` uses the
full iterator, `num_samples = 100` uses the sub-iterator. -/
theorem check_accuracy_subiter_choice_witness :
    checkAccuracy demoCollabHit [] demoIter200 (some 1000) demoSub 10 =
      evalAccuracy demoCollabHit [] demoIter200 ∧
    checkAccuracy demoCollabHit [] demoIter200 (some 100) demoSub 10 =
      evalAccuracy demoCollabHit [] (demoSub 100) := by
  have thm := check_accuracy_subiter_choice demoCollabHit [] demoIter200 demoSub 10
  exact ⟨thm.2.2.2 rfl, thm.1 100 (by norm_num [demoIter200])⟩

/-- Witness for C8 on the one-batch iterator with batch size 1. -/
theorem check_accuracy_ratio_witness :
    demoIter.batches ≠ [] ∧ 0 < demoIter.batchSize ∧
    (∀ b ∈ demoIter.batches,
      (demoCollabHit.labelsOf b).length ≤ demoIter.batchSize) ∧
    ∃ r : ℚ, checkAccuracy demoCollabHit [] demoIter none demoSub 100 = some r ∧
      r = ((demoIter.batches.map (batchMatches demoCollabHit [])).sum : ℚ) /
          ((demoIter.batches.length * demoIter.batchSize : ℕ) : ℚ) ∧
      0 ≤ r ∧ r ≤ 1 := by
  refine ⟨by simp [demoIter], by norm_num [demoIter],
    fun b _ => by simp [demoIter, demoCollabHit], ?_⟩
  exact check_accuracy_ratio demoCollabHit [] demoIter demoSub 100
    (by simp [demoIter]) (by norm_num [demoIter])
    (fun b _ => by simp [demoIter, demoCollabHit])

/-- Witness for C9: a valid construction, an unrecognized `momentum` key,
and a bogus `update_rule` name, over a one-rule registry pair. -/
theorem construction_validation_witness :
    (∃ rules, solverNew ["sgd"] ["xavier"] [("update_rule", "sgd")] = .ok rules) ∧
    (∃ ks, solverNew ["sgd"] ["xavier"] [("momentum", "0.9")] =
      .error (.unrecognizedOption ks)) ∧
    (∃ r, solverNew ["sgd"] ["xavier"] [("update_rule", "adam")] =
      .error (.unknownRule r)) := by
  refine ⟨?_, ?_, ?_⟩
  · exact (construction_validation ["sgd"] ["xavier"] _).2.2.mpr
      ⟨by decide, by decide, by decide⟩
  · exact (construction_validation ["sgd"] ["xavier"] _).1 (by decide)
  · exact (construction_validation ["sgd"] ["xavier"] _).2.1 (by decide)
      (Or.inl (by decide))

/-- Witness for C10 on the hit run: the `epoch` field stays 0 through a
step and through the whole run, and every epoch summary reports index 0. -/
theorem epoch_field_never_advances_witness :
    ∃ s' final, stepFn demoSetupHit.collab 0 demoS0 = some s' ∧
      s'.epoch = demoS0.epoch ∧
      train demoSetupHit demoS0 = some final ∧ final.epoch = 0 ∧
      ∀ l ∈ final.epochLogs, l.epochIdx = 0 := by
  have hstep : stepFn demoSetupHit.collab 0 demoS0 = some
      { params := [("w1", -1), ("w2", -1)]
        optimConfigs := [("w1", [("learning_rate", 1/10)]),
          ("w2", [("learning_rate", 1/10)])]
        initConfigs := [("w1", []), ("w2", [])]
        lossHistory := [1]
        trainAccHistory := []
        valAccHistory := []
        bestValAcc := 0
        bestParams := []
        epoch := 0
        epochLogs := [] } := demo_step_hit_eval
  have heval := demo_train_hit_eval
  have thm := epoch_field_never_advances demoSetupHit ["w1", "w2"]
    [("learning_rate", 1/10)] [] [("w1", 0), ("w2", 0)]
  obtain ⟨h1, h2⟩ := thm.2.2.2 _ heval
  exact ⟨_, _, hstep, thm.2.1 0 demoS0 _ hstep, heval, h1, h2⟩

end MinpySolver
